import Mathlib

/-!
# EtabExtension: verification of the persistence layer

A shallow embedding of the EtabExtension repository (crates `ext-core`,
`ext-error`, `ext-db`, `ext-api`, `ext-tauri`) and proofs about its
specified behaviour.

Modelling conventions:
* The asynchronous runtime and the facade's mutex are erased: the mutex
  guarantees that storage operations execute one at a time, so operations
  are modelled as sequential state transformers over an explicit
  filesystem state `FS`.
* File contents are modelled at the JSON level (`Json` values): the
  textual layer (`serde_json::to_string_pretty` / `from_str`) is an
  external library whose print/parse round-trip is folded into the model.
* `chrono::DateTime<Utc>` instants and `uuid::Uuid` values are modelled
  as natural numbers; their textual renderings (`to_rfc3339`,
  `Uuid::to_string`) are modelled by an injective decimal rendering with
  a verified parsing left inverse, mirroring the round-trip property of
  the real RFC3339 / hyphenated-UUID renderings.
* Effects of `Uuid::new_v4()` (randomness) and `Utc::now()` (clock) are
  passed in as explicit arguments where the Rust code performs them.
-/

deriving instance DecidableEq for Except

namespace EtabExt

/-! ## Decimal rendering (model of the textual form of uuids and timestamps) -/

/-- The character of a decimal digit. -/
def digitChar (d : Nat) : Char := Char.ofNat (48 + d)

/-- The value of a decimal digit character. -/
def digitVal (c : Char) : Nat := c.toNat - 48

/-- Is this character a decimal digit? -/
def isDigitCh (c : Char) : Bool := 48 ≤ c.toNat && c.toNat ≤ 57

/-- Decimal digits, least significant first, by structural recursion on a
fuel bound (so that evaluation reduces inside the kernel). -/
def toDigitsRevAux : Nat → Nat → List Nat
  | 0, _ => []
  | fuel + 1, n => if n = 0 then [] else (n % 10) :: toDigitsRevAux fuel (n / 10)

/-- Decimal digits of `n`, least significant first (empty for 0). -/
def toDigitsRev (n : Nat) : List Nat := toDigitsRevAux n n

/-- Value of a least-significant-first digit list. -/
def ofDigitsRev : List Nat → Nat
  | [] => 0
  | d :: ds => d + 10 * ofDigitsRev ds

/-- Decimal rendering of a natural number. -/
def natToString (n : Nat) : String :=
  if n = 0 then "0" else String.mk (((toDigitsRev n).reverse).map digitChar)

/-- Parse a decimal string back to a natural number (accepts exactly
nonempty all-digit strings). -/
def parseNat (s : String) : Option Nat :=
  if s.data = [] then none
  else if s.data.all isDigitCh then
    some (ofDigitsRev ((s.data.map digitVal).reverse))
  else none

/-! ## Entity and error types (`ext-core`, `ext-error`) -/

/-- Model of `uuid::Uuid`: a 128-bit value, carried as a `Nat`. -/
structure Uuid where
  val : Nat
deriving DecidableEq, Repr

/-- Model of `Uuid`'s hyphenated textual form (`to_string`): an injective
rendering of the value. -/
def Uuid.render (u : Uuid) : String := natToString u.val

/-- Model of parsing a `Uuid` from its textual form (serde `Deserialize`);
left inverse of `Uuid.render`. -/
def Uuid.parse (s : String) : Option Uuid := (parseNat s).map Uuid.mk

/-- Model of `chrono::DateTime<Utc>`: an instant, carried as nanoseconds
since the epoch. -/
structure DateTime where
  nanos : Nat
deriving DecidableEq, Repr

/-- Model of `DateTime::to_rfc3339`: an injective textual rendering of the
instant. -/
def DateTime.to_rfc3339 (t : DateTime) : String := natToString t.nanos

/-- Model of parsing an RFC3339 timestamp (chrono's serde deserializer);
left inverse of `DateTime.to_rfc3339`. -/
def DateTime.parseRfc3339 (s : String) : Option DateTime :=
  (parseNat s).map DateTime.mk

/-- `ext_core::Project`: the sole domain entity. -/
structure Project where
  id : Uuid
  name : String
  description : String
  created_at : DateTime
  updated_at : DateTime
deriving DecidableEq, Repr

/-- `Project::new(name, description)`. The Rust constructor calls
`Uuid::new_v4()` and `Utc::now()`; those two effects are passed in as the
explicit arguments `id` (the fresh 128-bit random draw) and `now` (the
clock reading, captured once and used for both timestamps). -/
def Project.new (id : Uuid) (now : DateTime) (name description : String) : Project :=
  { id := id
    name := name
    description := description
    created_at := now
    updated_at := now }

/-- `ext_error::AppError`. -/
inductive AppError where
  | Database (msg : String)
  | Validation (msg : String)
  | NotFound (msg : String)
  | Internal (msg : String)
  | Etabs (msg : String)
deriving DecidableEq, Repr

/-- The `Display` rendering of `AppError` derived by `thiserror` from the
`#[error("...")]` attributes; `e.to_string()` in the facade produces this. -/
def AppError.display : AppError → String
  | .Database m => "Database error: " ++ m
  | .Validation m => "Validation error: " ++ m
  | .NotFound m => "Not found: " ++ m
  | .Internal m => "Internal error: " ++ m
  | .Etabs m => "ETABS error: " ++ m

/-- The fixed variant-identifying leading text of each `AppError`'s
display rendering. -/
def AppError.kindTag : AppError → String
  | .Database _ => "Database error: "
  | .Validation _ => "Validation error: "
  | .NotFound _ => "Not found: "
  | .Internal _ => "Internal error: "
  | .Etabs _ => "ETABS error: "

/-- The message carried by an `AppError`. -/
def AppError.message : AppError → String
  | .Database m => m
  | .Validation m => m
  | .NotFound m => m
  | .Internal m => m
  | .Etabs m => m

/-- Discriminant of an `AppError` variant. -/
def AppError.kind : AppError → Nat
  | .Database _ => 0
  | .Validation _ => 1
  | .NotFound _ => 2
  | .Internal _ => 3
  | .Etabs _ => 4

/-! ## JSON values (model of `serde_json::Value`) -/

/-- A JSON value, as built by `serde_json::json!` and consumed by serde
deserializers. -/
inductive Json where
  | null
  | bool (b : Bool)
  | num (n : Int)
  | str (s : String)
  | arr (elems : List Json)
  | obj (fields : List (String × Json))

/-- Look a key up in a JSON object's field list (first match). -/
def lookupField : List (String × Json) → String → Option Json
  | [], _ => none
  | (k, v) :: rest, key => if k = key then some v else lookupField rest key

/-- Field access on a JSON value (`none` off objects). -/
def Json.getField : Json → String → Option Json
  | .obj fields, key => lookupField fields key
  | _, _ => none

/-- Extract a JSON string. -/
def Json.asStr : Json → Option String
  | .str s => some s
  | _ => none

/-- The `serde_json::json!` literal built in
`Database::save_project_to_filesystem`: the five project fields, with the
id and the two timestamps rendered as strings. -/
def projectMetadata (project : Project) : Json :=
  .obj
    [ ("id", .str project.id.render)
    , ("name", .str project.name)
    , ("description", .str project.description)
    , ("created_at", .str project.created_at.to_rfc3339)
    , ("updated_at", .str project.updated_at.to_rfc3339) ]

/-- The serde `Deserialize` derive for `Project` as used by
`serde_json::from_str` in `Database::load_project`: each field is
required, the id is parsed from its string form, the timestamps from
their RFC3339 string forms. -/
def Project.fromJson (j : Json) : Option Project := do
  let idStr ← (j.getField "id").bind Json.asStr
  let id ← Uuid.parse idStr
  let name ← (j.getField "name").bind Json.asStr
  let description ← (j.getField "description").bind Json.asStr
  let caStr ← (j.getField "created_at").bind Json.asStr
  let created_at ← DateTime.parseRfc3339 caStr
  let uaStr ← (j.getField "updated_at").bind Json.asStr
  let updated_at ← DateTime.parseRfc3339 uaStr
  some
    { id := id
      name := name
      description := description
      created_at := created_at
      updated_at := updated_at }

/-! ## Filesystem state (model of the `tokio::fs` operations used) -/

/-- A filesystem path, as a list of components below an unnamed root. -/
abbrev Path := List String

/-- Boolean membership of a path in a list of paths. -/
def memPath : List Path → Path → Bool
  | [], _ => false
  | q :: rest, p => if q = p then true else memPath rest p

/-- First file content recorded for a path. -/
def findFile : List (Path × Json) → Path → Option Json
  | [], _ => none
  | (q, c) :: rest, p => if q = p then some c else findFile rest p

/-- Filesystem state. `dirs` are the existing directories, `files` the
readable files with their (JSON-level) contents, `unreadable` paths that
exist as files but whose read fails with an I/O error, and `unwritable`
paths where directory creation or file writes fail (permission model). -/
structure FS where
  dirs : List Path
  files : List (Path × Json)
  unreadable : List Path
  unwritable : List Path

/-- All nonempty initial segments of a path: the directories
`create_dir_all` brings into existence. -/
def initSegs (p : Path) : List Path :=
  (List.range p.length).map (fun k => p.take (k + 1))

/-- `tokio::fs::create_dir_all`: creates the directory and its missing
ancestors; fails on an unwritable path, leaving the state unchanged. -/
def FS.createDirAll (fs : FS) (p : Path) : (Except String Unit) × FS :=
  if memPath fs.unwritable p then (.error "permission denied", fs)
  else (.ok (), { fs with dirs := initSegs p ++ fs.dirs })

/-- `tokio::fs::write`: records the content for the path (shadowing any
earlier record); fails on an unwritable path, leaving the state
unchanged. -/
def FS.write (fs : FS) (p : Path) (content : Json) : (Except String Unit) × FS :=
  if memPath fs.unwritable p then (.error "permission denied", fs)
  else (.ok (), { fs with files := (p, content) :: fs.files })

/-- `std::path::Path::exists`: true when the path is a readable file, an
unreadable file, or a directory. -/
def FS.pathExists (fs : FS) (p : Path) : Bool :=
  (findFile fs.files p).isSome || memPath fs.unreadable p || memPath fs.dirs p

/-- `tokio::fs::read_to_string`: yields the recorded content of a
readable file and fails otherwise (unreadable file, directory, or absent
path). -/
def FS.read (fs : FS) (p : Path) : Except String Json :=
  match findFile fs.files p with
  | some c => .ok c
  | none => .error "io error"

/-- The entry name contributed by path `q` to a listing of directory
`root`: its final component when `q` is an immediate child of `root`. -/
def childName (root q : Path) : Option String :=
  if q.take root.length = root ∧ q.length = root.length + 1 then
    (q.drop root.length).head?
  else none

/-- The entry names of a directory: final components of the immediate
children (directories and files), each listed once. -/
def FS.entryNames (fs : FS) (root : Path) : List String :=
  ((fs.dirs ++ fs.files.map Prod.fst ++ fs.unreadable).filterMap
    (childName root)).dedup

/-- `tokio::fs::read_dir` plus the `next_entry` loop: fails when the
directory does not exist, otherwise yields all entry names. -/
def FS.readDir (fs : FS) (root : Path) : Except String (List String) :=
  if memPath fs.dirs root then .ok (fs.entryNames root)
  else .error "no such directory"

/-! ## Storage layer (`ext-db::Database`) -/

/-- `ext_db::Database`. The `DbConn` handle (SeaORM connection) is
established by `Database::new` but never used for persistence, so only
the projects root directory is carried. -/
structure Database where
  projects_dir : Path

/-- `Database::new(db_url, projects_dir)`: connects to the relational
store (an external-library step, modelled as succeeding) and ensures the
projects root directory exists. -/
def Database.new (db_url : String) (projects_dir : Path) (fs : FS) :
    (Except AppError Database) × FS :=
  match fs.createDirAll projects_dir with
  | (.error e, fs1) =>
      (.error (.Database ("Failed to create projects directory: " ++ e)), fs1)
  | (.ok (), fs1) => (.ok { projects_dir := projects_dir }, fs1)

/-- `Database::save_project_to_db`: the relational-store write, a
placeholder that does nothing and returns `Ok(())` (TODO in the source). -/
def Database.save_project_to_db (_self : Database) (_project : Project) :
    Except AppError Unit := .ok ()

/-- `Database::save_project_to_filesystem`: create the project's
directory (recursive), serialize the project (the `json!` literal,
pretty-printed at the textual layer) and write it to `project.json`
inside that directory. `serde_json::to_string_pretty` cannot fail on a
`json!`-built value, so its error arm is dead in this model. -/
def Database.save_project_to_filesystem (self : Database) (project : Project)
    (fs : FS) : (Except AppError Unit) × FS :=
  let project_path := self.projects_dir ++ [project.id.render]
  match fs.createDirAll project_path with
  | (.error e, fs1) =>
      (.error (.Database ("Failed to create project directory: " ++ e)), fs1)
  | (.ok (), fs1) =>
    let metadata := projectMetadata project
    match fs1.write (project_path ++ ["project.json"]) metadata with
    | (.error e, fs2) =>
        (.error (.Database ("Failed to write project file: " ++ e)), fs2)
    | (.ok (), fs2) => (.ok (), fs2)

/-- `Database::save_project`: the relational-store write, then the
filesystem write. -/
def Database.save_project (self : Database) (project : Project) (fs : FS) :
    (Except AppError Unit) × FS :=
  match self.save_project_to_db project with
  | .error e => (.error e, fs)
  | .ok () => self.save_project_to_filesystem project fs

/-- `Database::load_project(project_id)`: `None` when no `project.json`
exists under the id; otherwise read and parse the file, surfacing read
or parse failures as `AppError::Database`. (The source interpolates the
serde error into the parse message; a fixed message stands in for it.) -/
def Database.load_project (self : Database) (fs : FS) (project_id : String) :
    Except AppError (Option Project) :=
  let project_path := self.projects_dir ++ [project_id, "project.json"]
  if fs.pathExists project_path then
    match fs.read project_path with
    | .error e => .error (.Database ("Failed to read project file: " ++ e))
    | .ok content =>
      match Project.fromJson content with
      | none => .error (.Database "Failed to parse project: invalid data")
      | some project => .ok (some project)
  else .ok none

/-- The per-entry step of `Database::list_projects`: the
`if let Ok(Some(project))` filter around `load_project` — a failing or
empty load contributes nothing. -/
def Database.tryLoadEntry (self : Database) (fs : FS) (name : String) :
    Option Project :=
  match self.load_project fs name with
  | .ok (some project) => some project
  | _ => none

/-- `Database::list_projects`: enumerate the projects root and keep the
entries that load successfully. -/
def Database.list_projects (self : Database) (fs : FS) :
    Except AppError (List Project) :=
  match fs.readDir self.projects_dir with
  | .error e => .error (.Database ("Failed to read projects directory: " ++ e))
  | .ok entries => .ok (entries.filterMap (self.tryLoadEntry fs))

/-! ## Application facade (`ext-api::AppState`) and commands -/

/-- `ext_api::AppState`: the storage instance behind the facade's mutex.
The mutex serializes storage operations; its effect is the sequential
state passing used throughout this model. -/
structure AppState where
  db : Database

/-- `AppState::create_project(name, description)`: construct the Project
(`freshId`/`now` are the effects of `Uuid::new_v4()`/`Utc::now()` inside
`Project::new`), save it, and return it; a storage error is converted to
its display string. -/
def AppState.create_project (self : AppState) (freshId : Uuid) (now : DateTime)
    (name description : String) (fs : FS) : (Except String Project) × FS :=
  let project := Project.new freshId now name description
  match self.db.save_project project fs with
  | (.ok (), fs1) => (.ok project, fs1)
  | (.error e, fs1) => (.error e.display, fs1)

/-- `AppState::get_projects`: list the stored projects; a storage error
is converted to its display string. -/
def AppState.get_projects (self : AppState) (fs : FS) :
    Except String (List Project) :=
  match self.db.list_projects fs with
  | .ok projects => .ok projects
  | .error e => .error e.display

/-- The `greet` command (`ext-tauri/src/commands.rs`):
`format!("Hello, {}! Welcome to ETAB Extension.", name)`. -/
def greet (name : String) : String :=
  "Hello, " ++ name ++ "! Welcome to ETAB Extension."

/-! ## Iterated operations (used to state multi-step claims) -/

/-- Run `save_project` on each project in turn, stopping at the first
failure. -/
def saveAll (db : Database) : List Project → FS → (Except AppError Unit) × FS
  | [], fs => (.ok (), fs)
  | p :: rest, fs =>
    match db.save_project p fs with
    | (.ok (), fs1) => saveAll db rest fs1
    | (.error e, fs1) => (.error e, fs1)

/-- Run a trace of `create_project` calls (each with its random draw and
clock reading), threading the filesystem state. -/
def runCreates (st : AppState) :
    List (Uuid × DateTime × String × String) → FS → FS
  | [], fs => fs
  | c :: rest, fs =>
    runCreates st rest (st.create_project c.1 c.2.1 c.2.2.1 c.2.2.2 fs).2

/-- All project records on disk carry equal creation and update
timestamps: the on-disk invariant behind the `created_at <= updated_at`
property of listed projects. -/
def timesOk (fs : FS) : Prop :=
  ∀ e ∈ fs.files, ∀ q : Project, Project.fromJson e.2 = some q →
    q.created_at = q.updated_at

/-! ## Concrete fixtures (used by witness theorems) -/

/-- A storage handle rooted at `projects/`. -/
def sampleDb : Database := { projects_dir := ["projects"] }

/-- The facade over `sampleDb`. -/
def sampleState : AppState := { db := sampleDb }

/-- A fresh store: the projects root exists and is empty. -/
def sampleFs : FS :=
  { dirs := [["projects"]], files := [], unreadable := [], unwritable := [] }

/-- A store holding one malformed entry: `projects/junk/project.json`
exists but does not parse as a Project. -/
def sampleFsMalformed : FS :=
  { dirs := [["projects"], ["projects", "junk"]]
    files := [(["projects", "junk", "project.json"], .str "oops")]
    unreadable := []
    unwritable := [] }

/-- A store where the directory of the project with id 5 cannot be
created: saving that project fails with an I/O error. -/
def sampleFsReadOnly : FS :=
  { dirs := [["projects"]], files := [], unreadable := []
    unwritable := [["projects", "5"]] }

/-- A store whose projects root is missing: listing fails. -/
def sampleFsNoRoot : FS :=
  { dirs := [], files := [], unreadable := [], unwritable := [] }

/-- A one-call creation trace: random draw 7, clock reading 100. -/
def sampleTrace : List (Uuid × DateTime × String × String) :=
  [(⟨7⟩, ⟨100⟩, "Alpha", "First")]

/-- A sample project (random draw 7, clock reading 100). -/
def sampleProjectA : Project := Project.new ⟨7⟩ ⟨100⟩ "Alpha" "First"

/-- A second sample project (random draw 8, clock reading 200). -/
def sampleProjectB : Project := Project.new ⟨8⟩ ⟨200⟩ "Beta" "Second"

/-! ## Round-trip of the textual renderings -/

theorem digitVal_digitChar : ∀ d, d < 10 →
    digitVal (digitChar d) = d ∧ isDigitCh (digitChar d) = true := by decide

theorem ofDigitsRev_toDigitsRevAux :
    ∀ fuel n, n ≤ fuel → ofDigitsRev (toDigitsRevAux fuel n) = n := by
  intro fuel
  induction fuel with
  | zero => intro n hn; interval_cases n; rfl
  | succ fuel ih =>
    intro n hn
    rw [toDigitsRevAux]
    by_cases h : n = 0
    · simp [h, ofDigitsRev]
    · rw [if_neg h, ofDigitsRev]
      have hdiv : n / 10 < n := Nat.div_lt_self (Nat.pos_of_ne_zero h) (by omega)
      rw [ih (n / 10) (by omega)]
      omega

theorem ofDigitsRev_toDigitsRev (n : Nat) :
    ofDigitsRev (toDigitsRev n) = n :=
  ofDigitsRev_toDigitsRevAux n n (Nat.le_refl n)

theorem toDigitsRevAux_lt :
    ∀ fuel n, ∀ d ∈ toDigitsRevAux fuel n, d < 10 := by
  intro fuel
  induction fuel with
  | zero => intro n d hd; simp [toDigitsRevAux] at hd
  | succ fuel ih =>
    intro n d hd
    rw [toDigitsRevAux] at hd
    by_cases h : n = 0
    · simp [h] at hd
    · rw [if_neg h] at hd
      rcases List.mem_cons.mp hd with rfl | hd2
      · omega
      · exact ih (n / 10) d hd2

theorem toDigitsRev_lt (n : Nat) : ∀ d ∈ toDigitsRev n, d < 10 :=
  toDigitsRevAux_lt n n

theorem toDigitsRev_ne_nil (n : Nat) (h : n ≠ 0) : toDigitsRev n ≠ [] := by
  rw [toDigitsRev]
  cases n with
  | zero => exact absurd rfl h
  | succ m => rw [toDigitsRevAux, if_neg h]; simp

theorem parseNat_natToString (n : Nat) : parseNat (natToString n) = some n := by
  by_cases h : n = 0
  · subst h; decide
  · have hchars : ∀ c ∈ ((toDigitsRev n).reverse).map digitChar,
        isDigitCh c = true := by
      intro c hc
      rcases List.mem_map.mp hc with ⟨d, hd, rfl⟩
      exact (digitVal_digitChar d (toDigitsRev_lt n d (List.mem_reverse.mp hd))).2
    have hne : ((toDigitsRev n).reverse).map digitChar ≠ [] := by
      simp [toDigitsRev_ne_nil n h]
    rw [natToString, if_neg h, parseNat]
    simp only [String.data]
    rw [if_neg hne, if_pos (List.all_eq_true.mpr hchars)]
    have hmap : (((toDigitsRev n).reverse).map digitChar).map digitVal
        = (toDigitsRev n).reverse := by
      rw [List.map_map]
      have : ∀ d ∈ (toDigitsRev n).reverse, (digitVal ∘ digitChar) d = d := by
        intro d hd
        exact (digitVal_digitChar d (toDigitsRev_lt n d (List.mem_reverse.mp hd))).1
      rw [List.map_congr_left this]
      simp
    rw [hmap, List.reverse_reverse, ofDigitsRev_toDigitsRev]

theorem Uuid.parse_render (u : Uuid) : Uuid.parse u.render = some u := by
  simp [Uuid.parse, Uuid.render, parseNat_natToString]

theorem DateTime.parse_to_rfc3339 (t : DateTime) :
    DateTime.parseRfc3339 t.to_rfc3339 = some t := by
  simp [DateTime.parseRfc3339, DateTime.to_rfc3339, parseNat_natToString]

/-- The JSON record written by `save_project_to_filesystem` deserializes
back to the very project it came from. -/
theorem fromJson_projectMetadata (p : Project) :
    Project.fromJson (projectMetadata p) = some p := by
  simp [Project.fromJson, projectMetadata, Json.getField, lookupField,
    Json.asStr, Uuid.parse_render, DateTime.parse_to_rfc3339, Option.bind]

/-! ## Path and filesystem lemmas -/

theorem memPath_iff {l : List Path} {p : Path} : memPath l p = true ↔ p ∈ l := by
  induction l with
  | nil => simp [memPath]
  | cons q rest ih =>
    rw [memPath]
    by_cases h : q = p
    · simp [h]
    · simp only [if_neg h, ih, List.mem_cons]
      constructor
      · exact Or.inr
      · rintro (rfl | hm)
        · exact absurd rfl h
        · exact hm

theorem memPath_eq_false {l : List Path} {p : Path} (h : p ∉ l) :
    memPath l p = false := by
  cases hm : memPath l p
  · rfl
  · exact absurd (memPath_iff.mp hm) h

theorem length_of_mem_initSegs {p q : Path} (h : q ∈ initSegs p) :
    q.length ≤ p.length := by
  rcases List.mem_map.mp h with ⟨k, _, rfl⟩
  rw [List.length_take]
  omega

theorem childName_append (root : Path) (x : String) :
    childName root (root ++ [x]) = some x := by
  rw [childName, if_pos ⟨List.take_left root [x], by simp⟩, List.drop_left]
  rfl

theorem childName_of_length_ne {root q : Path}
    (h : q.length ≠ root.length + 1) : childName root q = none := by
  rw [childName, if_neg]
  rintro ⟨-, h2⟩
  exact h h2

theorem childName_eq_some_iff {root q : Path} {x : String} :
    childName root q = some x ↔ q = root ++ [x] := by
  constructor
  · intro h
    rw [childName] at h
    split at h
    case isTrue hc =>
      obtain ⟨h1, h2⟩ := hc
      have h3 : (q.drop root.length).length = 1 := by
        rw [List.length_drop, h2]; omega
      rcases List.length_eq_one.mp h3 with ⟨z, hz⟩
      rw [hz] at h
      have hzx : z = x := by simpa using h
      have h4 : q.take root.length ++ q.drop root.length = q :=
        List.take_append_drop _ _
      rw [h1, hz, hzx] at h4
      exact h4.symm
    case isFalse => exact absurd h (by simp)
  · rintro rfl
    exact childName_append root x

theorem self_mem_initSegs (root : Path) (x : String) :
    root ++ [x] ∈ initSegs (root ++ [x]) := by
  have hlen : (root ++ [x]).length = root.length + 1 := by simp
  refine List.mem_map.mpr ⟨root.length, List.mem_range.mpr (by rw [hlen]; omega), ?_⟩
  rw [← hlen, List.take_length]

theorem filterMap_childName_initSegs (root : Path) (x : String) :
    (initSegs (root ++ [x])).filterMap (childName root) = [x] := by
  have hlen : (root ++ [x]).length = root.length + 1 := by simp
  rw [initSegs, hlen, List.range_succ, List.map_append, List.filterMap_append]
  have h1 : ((List.range root.length).map
      (fun k => (root ++ [x]).take (k + 1))).filterMap (childName root) = [] := by
    rw [List.filterMap_eq_nil_iff]
    intro a ha
    rcases List.mem_map.mp ha with ⟨k, hk, rfl⟩
    have hk' : k < root.length := List.mem_range.mp hk
    apply childName_of_length_ne
    rw [List.length_take, hlen]
    omega
  have h2 : (root ++ [x]).take (root.length + 1) = root ++ [x] := by
    rw [← hlen, List.take_length]
  rw [h1, List.map_cons, List.map_nil, h2, List.filterMap_cons,
    childName_append]
  rfl

/-! ## Save / load interaction lemmas -/

theorem save_project_eq (db : Database) (p : Project) (fs : FS) :
    db.save_project p fs = db.save_project_to_filesystem p fs := rfl

theorem save_project_success_state (db : Database) (p : Project) (fs : FS)
    (h : (db.save_project p fs).1 = .ok ()) :
    memPath fs.unwritable (db.projects_dir ++ [p.id.render]) = false
    ∧ memPath fs.unwritable
        (db.projects_dir ++ [p.id.render, "project.json"]) = false
    ∧ (db.save_project p fs).2 =
        { fs with
          dirs := initSegs (db.projects_dir ++ [p.id.render]) ++ fs.dirs
          files := (db.projects_dir ++ [p.id.render, "project.json"],
                    projectMetadata p) :: fs.files } := by
  by_cases h1 : memPath fs.unwritable (db.projects_dir ++ [p.id.render]) = true
  · exfalso
    rw [save_project_eq, Database.save_project_to_filesystem] at h
    simp [FS.createDirAll, h1] at h
  · by_cases h2 : memPath fs.unwritable
        (db.projects_dir ++ [p.id.render, "project.json"]) = true
    · exfalso
      rw [save_project_eq, Database.save_project_to_filesystem] at h
      simp [FS.createDirAll, FS.write, h1, h2] at h
    · refine ⟨by simpa using h1, by simpa using h2, ?_⟩
      rw [save_project_eq, Database.save_project_to_filesystem]
      simp [FS.createDirAll, FS.write, h1, h2]

theorem save_project_error_form (db : Database) (p : Project) (fs : FS)
    (e : AppError) (h : (db.save_project p fs).1 = .error e) :
    ∃ m, e = .Database m := by
  rw [save_project_eq, Database.save_project_to_filesystem] at h
  by_cases h1 : memPath fs.unwritable (db.projects_dir ++ [p.id.render]) = true
  · simp [FS.createDirAll, h1] at h
    exact ⟨_, h.symm⟩
  · by_cases h2 : memPath fs.unwritable
        (db.projects_dir ++ [p.id.render, "project.json"]) = true
    · simp [FS.createDirAll, FS.write, h1, h2] at h
      exact ⟨_, h.symm⟩
    · simp [FS.createDirAll, FS.write, h1, h2] at h

theorem save_project_files_cases (db : Database) (p : Project) (fs : FS) :
    (db.save_project p fs).2.files = fs.files
    ∨ (db.save_project p fs).2.files =
        (db.projects_dir ++ [p.id.render, "project.json"],
         projectMetadata p) :: fs.files := by
  rw [save_project_eq, Database.save_project_to_filesystem]
  by_cases h1 : memPath fs.unwritable (db.projects_dir ++ [p.id.render]) = true
  · left; simp [FS.createDirAll, h1]
  · by_cases h2 : memPath fs.unwritable
        (db.projects_dir ++ [p.id.render, "project.json"]) = true
    · left; simp [FS.createDirAll, FS.write, h1, h2]
    · right; simp [FS.createDirAll, FS.write, h1, h2]

theorem load_project_after_save (db : Database) (p : Project) (fs : FS)
    (h : (db.save_project p fs).1 = .ok ()) :
    db.load_project (db.save_project p fs).2 p.id.render = .ok (some p) := by
  obtain ⟨-, -, hstate⟩ := save_project_success_state db p fs h
  rw [hstate, Database.load_project]
  simp [FS.pathExists, FS.read, findFile, List.append_assoc,
    fromJson_projectMetadata]

theorem load_project_unchanged (db : Database) (p : Project) (fs : FS)
    (name : String) (h : (db.save_project p fs).1 = .ok ())
    (hne : name ≠ p.id.render) :
    db.load_project (db.save_project p fs).2 name
      = db.load_project fs name := by
  obtain ⟨-, -, hstate⟩ := save_project_success_state db p fs h
  have hne' : p.id.render ≠ name := fun hx => hne hx.symm
  have hfind : findFile (db.save_project p fs).2.files
      (db.projects_dir ++ [name, "project.json"])
      = findFile fs.files (db.projects_dir ++ [name, "project.json"]) := by
    rw [hstate]
    simp [findFile, hne']
  have hdirs : memPath (db.save_project p fs).2.dirs
      (db.projects_dir ++ [name, "project.json"])
      = memPath fs.dirs (db.projects_dir ++ [name, "project.json"]) := by
    rw [hstate]
    cases hm : memPath fs.dirs (db.projects_dir ++ [name, "project.json"])
    · apply memPath_eq_false
      intro hmem
      rcases List.mem_append.mp hmem with hseg | hold
      · have hlen := length_of_mem_initSegs hseg
        simp [List.length_append] at hlen
      · exact absurd (memPath_iff.mpr hold) (by simp [hm])
    · exact memPath_iff.mpr (List.mem_append.mpr (Or.inr (memPath_iff.mp hm)))
  have hunr : (db.save_project p fs).2.unreadable = fs.unreadable := by
    rw [hstate]
  simp only [Database.load_project, FS.pathExists, FS.read]
  rw [hfind, hdirs, hunr]

/-! ## Listing lemmas -/

theorem entryNames_after_save (db : Database) (p : Project) (fs : FS)
    (h : (db.save_project p fs).1 = .ok ())
    (hfresh : p.id.render ∉ fs.entryNames db.projects_dir) :
    (db.save_project p fs).2.entryNames db.projects_dir
      = p.id.render :: fs.entryNames db.projects_dir := by
  obtain ⟨-, -, hstate⟩ := save_project_success_state db p fs h
  have hkeynone :
      childName db.projects_dir (db.projects_dir ++ [p.id.render, "project.json"])
        = none := by
    apply childName_of_length_ne
    simp [List.length_append]
  rw [hstate, FS.entryNames, FS.entryNames]
  simp only [List.map_cons, List.filterMap_append, List.filterMap_cons,
    hkeynone]
  have hsegs :
      (initSegs (db.projects_dir ++ [p.id.render])).filterMap
        (childName db.projects_dir) = [p.id.render] :=
    filterMap_childName_initSegs db.projects_dir p.id.render
  rw [hsegs]
  have hraw : p.id.render ∉
      ((fs.dirs ++ fs.files.map Prod.fst ++ fs.unreadable).filterMap
        (childName db.projects_dir)) := by
    intro hm
    exact hfresh (List.mem_dedup.mpr hm)
  rw [List.filterMap_append, List.filterMap_append] at hraw
  have : ([p.id.render] ++ (fs.dirs.filterMap (childName db.projects_dir)))
      ++ ((fs.files.map Prod.fst).filterMap (childName db.projects_dir))
      ++ (fs.unreadable.filterMap (childName db.projects_dir))
      = p.id.render ::
        ((fs.dirs.filterMap (childName db.projects_dir))
          ++ ((fs.files.map Prod.fst).filterMap (childName db.projects_dir))
          ++ (fs.unreadable.filterMap (childName db.projects_dir))) := by
    simp
  rw [this, List.dedup_cons_of_not_mem hraw]

theorem tryLoadEntry_after_save (db : Database) (p : Project) (fs : FS)
    (name : String) (h : (db.save_project p fs).1 = .ok ())
    (hne : name ≠ p.id.render) :
    db.tryLoadEntry (db.save_project p fs).2 name = db.tryLoadEntry fs name := by
  rw [Database.tryLoadEntry, Database.tryLoadEntry,
    load_project_unchanged db p fs name h hne]

theorem tryLoadEntry_saved (db : Database) (p : Project) (fs : FS)
    (h : (db.save_project p fs).1 = .ok ()) :
    db.tryLoadEntry (db.save_project p fs).2 p.id.render = some p := by
  rw [Database.tryLoadEntry, load_project_after_save db p fs h]

theorem list_projects_eq (db : Database) (fs : FS)
    (hroot : memPath fs.dirs db.projects_dir = true) :
    db.list_projects fs
      = .ok ((fs.entryNames db.projects_dir).filterMap (db.tryLoadEntry fs)) := by
  rw [Database.list_projects, FS.readDir, if_pos hroot]

theorem list_projects_saveAll (db : Database) (ps : List Project) :
    ∀ fs : FS, memPath fs.dirs db.projects_dir = true →
    (saveAll db ps fs).1 = .ok () →
    (ps.map fun p => p.id.render).Nodup →
    (∀ p ∈ ps, p.id.render ∉ fs.entryNames db.projects_dir) →
    db.list_projects (saveAll db ps fs).2
      = .ok (ps.reverse
          ++ (fs.entryNames db.projects_dir).filterMap (db.tryLoadEntry fs)) := by
  induction ps with
  | nil =>
    intro fs hroot _ _ _
    rw [saveAll]
    simpa using list_projects_eq db fs hroot
  | cons p rest ih =>
    intro fs hroot hsucc hnodup hfresh
    rcases hsave1 : db.save_project p fs with ⟨r, fs1⟩
    cases r with
    | error e =>
      exfalso
      rw [saveAll, hsave1] at hsucc
      simp at hsucc
    | ok u =>
      cases u
      have hs1 : (db.save_project p fs).1 = .ok () := by rw [hsave1]
      have hfs1 : (db.save_project p fs).2 = fs1 := by rw [hsave1]
      have hfreshp : p.id.render ∉ fs.entryNames db.projects_dir :=
        hfresh p (List.mem_cons_self p rest)
      have hentry : fs1.entryNames db.projects_dir
          = p.id.render :: fs.entryNames db.projects_dir := by
        rw [← hfs1]
        exact entryNames_after_save db p fs hs1 hfreshp
      have hroot1 : memPath fs1.dirs db.projects_dir = true := by
        obtain ⟨-, -, hstate⟩ := save_project_success_state db p fs hs1
        rw [← hfs1, hstate]
        exact memPath_iff.mpr
          (List.mem_append.mpr (Or.inr (memPath_iff.mp hroot)))
      have hnodup1 : (rest.map fun q => q.id.render).Nodup :=
        (List.nodup_cons.mp (by simpa using hnodup)).2
      have hheadfresh : p.id.render ∉ (rest.map fun q => q.id.render) :=
        (List.nodup_cons.mp (by simpa using hnodup)).1
      have hfresh1 : ∀ q ∈ rest, q.id.render ∉ fs1.entryNames db.projects_dir := by
        intro q hq
        rw [hentry]
        intro hm
        rcases List.mem_cons.mp hm with hEq | hm2
        · exact hheadfresh (hEq ▸ List.mem_map.mpr ⟨q, hq, rfl⟩)
        · exact hfresh q (List.mem_cons_of_mem p hq) hm2
      have hsucc1 : (saveAll db rest fs1).1 = .ok () := by
        rw [saveAll, hsave1] at hsucc
        exact hsucc
      have hIH := ih fs1 hroot1 hsucc1 hnodup1 hfresh1
      have hstep : (fs1.entryNames db.projects_dir).filterMap
          (db.tryLoadEntry fs1)
          = p :: (fs.entryNames db.projects_dir).filterMap (db.tryLoadEntry fs) := by
        rw [hentry, List.filterMap_cons]
        have hself : db.tryLoadEntry fs1 p.id.render = some p := by
          rw [← hfs1]; exact tryLoadEntry_saved db p fs hs1
        rw [hself]
        show p :: List.filterMap (db.tryLoadEntry fs1)
            (fs.entryNames db.projects_dir) = _
        congr 1
        apply List.filterMap_congr
        intro name hname
        have hne : name ≠ p.id.render := fun hEq => hfreshp (hEq ▸ hname)
        rw [← hfs1]
        exact tryLoadEntry_after_save db p fs name hs1 hne
      rw [saveAll, hsave1, hIH, hstep]
      simp

/-! ## Facade lemmas -/

theorem create_project_ok (st : AppState) (id : Uuid) (now : DateTime)
    (name description : String) (fs : FS) (p : Project)
    (h : (st.create_project id now name description fs).1 = .ok p) :
    p = Project.new id now name description := by
  rw [AppState.create_project] at h
  rcases hs : st.db.save_project (Project.new id now name description) fs
    with ⟨r, fs1⟩
  rw [hs] at h
  cases r with
  | ok u => cases u; simpa using h.symm
  | error e => simp at h

theorem create_project_err (st : AppState) (id : Uuid) (now : DateTime)
    (name description : String) (fs : FS) (e : AppError)
    (h : (st.db.save_project (Project.new id now name description) fs).1
      = .error e) :
    (st.create_project id now name description fs).1 = .error e.display := by
  rw [AppState.create_project]
  rcases hs : st.db.save_project (Project.new id now name description) fs
    with ⟨r, fs1⟩
  rw [hs] at h
  cases r with
  | ok u => simp at h
  | error e2 =>
    have he : e2 = e := by simpa using h
    rw [he]

theorem create_project_state (st : AppState) (id : Uuid) (now : DateTime)
    (name description : String) (fs : FS) :
    (st.create_project id now name description fs).2
      = (st.db.save_project (Project.new id now name description) fs).2 := by
  rw [AppState.create_project]
  rcases hs : st.db.save_project (Project.new id now name description) fs
    with ⟨r, fs1⟩
  cases r with
  | ok u => cases u; rfl
  | error e => rfl

theorem get_projects_ok (st : AppState) (fs : FS) (l : List Project)
    (h : st.get_projects fs = .ok l) : st.db.list_projects fs = .ok l := by
  rw [AppState.get_projects] at h
  cases hl : st.db.list_projects fs with
  | ok l2 =>
    rw [hl] at h
    have hll : l2 = l := by simpa using h
    rw [hll]
  | error e => rw [hl] at h; simp at h

theorem get_projects_err (st : AppState) (fs : FS) (e : AppError)
    (h : st.db.list_projects fs = .error e) :
    st.get_projects fs = .error e.display := by
  rw [AppState.get_projects, h]

theorem list_projects_error_form (db : Database) (fs : FS) (e : AppError)
    (h : db.list_projects fs = .error e) : ∃ m, e = .Database m := by
  rw [Database.list_projects] at h
  cases hr : fs.readDir db.projects_dir with
  | ok es => rw [hr] at h; simp at h
  | error m =>
    rw [hr] at h
    have hh : AppError.Database ("Failed to read projects directory: " ++ m)
        = e := by simpa using h
    exact ⟨_, hh.symm⟩

/-! ## Provenance of loaded projects -/

theorem findFile_some_mem (files : List (Path × Json)) (p : Path) (c : Json)
    (h : findFile files p = some c) : ∃ e ∈ files, e.2 = c := by
  induction files with
  | nil => simp [findFile] at h
  | cons f rest ih =>
    rcases f with ⟨fq, fc⟩
    rw [findFile] at h
    by_cases hEq : fq = p
    · rw [if_pos hEq] at h
      exact ⟨(fq, fc), List.mem_cons_self _ _, Option.some.inj h⟩
    · rw [if_neg hEq] at h
      rcases ih h with ⟨e, hm, hc2⟩
      exact ⟨e, List.mem_cons_of_mem _ hm, hc2⟩

theorem load_project_ok_some (db : Database) (fs : FS) (name : String)
    (q : Project) (h : db.load_project fs name = .ok (some q)) :
    ∃ c, findFile fs.files (db.projects_dir ++ [name, "project.json"]) = some c
      ∧ Project.fromJson c = some q := by
  simp only [Database.load_project] at h
  by_cases hex :
      fs.pathExists (db.projects_dir ++ [name, "project.json"]) = true
  · rw [if_pos hex] at h
    cases hf : findFile fs.files (db.projects_dir ++ [name, "project.json"]) with
    | none =>
      simp only [FS.read, hf] at h
      exact Except.noConfusion h
    | some c =>
      simp only [FS.read, hf] at h
      cases hj : Project.fromJson c with
      | none => rw [hj] at h; simp at h
      | some q2 =>
        rw [hj] at h
        have : q2 = q := by simpa using h
        exact ⟨c, rfl, by rw [hj, this]⟩
  · rw [if_neg hex] at h
    simp at h

theorem tryLoadEntry_eq_some (db : Database) (fs : FS) (name : String)
    (q : Project) (h : db.tryLoadEntry fs name = some q) :
    db.load_project fs name = .ok (some q) := by
  rw [Database.tryLoadEntry] at h
  cases hl : db.load_project fs name with
  | ok o =>
    cases o with
    | none => rw [hl] at h; simp at h
    | some p2 =>
      rw [hl] at h
      have hpq : p2 = q := by simpa using h
      rw [hpq]
  | error e => rw [hl] at h; simp at h

theorem get_projects_mem_source (st : AppState) (fs : FS) (l : List Project)
    (q : Project) (h : st.get_projects fs = .ok l) (hq : q ∈ l) :
    ∃ c, (∃ e ∈ fs.files, e.2 = c) ∧ Project.fromJson c = some q := by
  have hl := get_projects_ok st fs l h
  rw [Database.list_projects] at hl
  cases hr : fs.readDir st.db.projects_dir with
  | error m => rw [hr] at hl; simp at hl
  | ok entries =>
    rw [hr] at hl
    have hfm : entries.filterMap (st.db.tryLoadEntry fs) = l := by simpa using hl
    rw [← hfm] at hq
    rcases List.mem_filterMap.mp hq with ⟨name, _, hload⟩
    have hlp := tryLoadEntry_eq_some st.db fs name q hload
    rcases load_project_ok_some st.db fs name q hlp with ⟨c, hfind, hjson⟩
    exact ⟨c, findFile_some_mem fs.files _ c hfind, hjson⟩

/-! ## The on-disk timestamp invariant -/

theorem timesOk_save (db : Database) (p : Project) (fs : FS)
    (hp : p.created_at = p.updated_at) (h : timesOk fs) :
    timesOk (db.save_project p fs).2 := by
  rcases save_project_files_cases db p fs with hc | hc
  · intro e he q hq
    rw [hc] at he
    exact h e he q hq
  · intro e he q hq
    rw [hc] at he
    rcases List.mem_cons.mp he with rfl | he2
    · have hm := fromJson_projectMetadata p
      rw [show ((db.projects_dir ++ [p.id.render, "project.json"],
          projectMetadata p) : Path × Json).2 = projectMetadata p from rfl,
        hm] at hq
      exact (Option.some.inj hq) ▸ hp
    · exact h e he2 q hq

theorem timesOk_create (st : AppState) (id : Uuid) (now : DateTime)
    (name description : String) (fs : FS) (h : timesOk fs) :
    timesOk (st.create_project id now name description fs).2 := by
  rw [create_project_state]
  exact timesOk_save st.db (Project.new id now name description) fs rfl h

theorem timesOk_runCreates (st : AppState)
    (trace : List (Uuid × DateTime × String × String)) :
    ∀ fs : FS, timesOk fs → timesOk (runCreates st trace fs) := by
  induction trace with
  | nil => intro fs h; exact h
  | cons c rest ih =>
    intro fs h
    rw [runCreates]
    exact ih _ (timesOk_create st c.1 c.2.1 c.2.2.1 c.2.2.2 fs h)

/-! ## Claim theorems -/

/-- C1: saving a Project and loading it back under its id (rendered as a
string) yields `Some` of a Project equal to the original in every field —
the id and timestamp renderings parse back to the exact values. -/
theorem save_load_roundtrip (db : Database) (p : Project) (fs : FS)
    (h : (db.save_project p fs).1 = .ok ()) :
    db.load_project (db.save_project p fs).2 p.id.render = .ok (some p) :=
  load_project_after_save db p fs h

/-- Witness for C1 at a concrete store and project. -/
theorem save_load_roundtrip_witness :
    (sampleDb.save_project sampleProjectA sampleFs).1 = .ok ()
    ∧ sampleDb.load_project (sampleDb.save_project sampleProjectA sampleFs).2
        sampleProjectA.id.render = .ok (some sampleProjectA) :=
  ⟨by decide, save_load_roundtrip sampleDb sampleProjectA sampleFs (by decide)⟩

/-- C2: `create_project` returns a Project whose `name` and `description`
equal the arguments verbatim; the entity constructor itself is total, with
no validation on any input (empty strings included). -/
theorem create_project_verbatim (st : AppState) (id : Uuid) (now : DateTime)
    (name description : String) (fs : FS) :
    ((Project.new id now name description).name = name
      ∧ (Project.new id now name description).description = description)
    ∧ ∀ p, (st.create_project id now name description fs).1 = .ok p →
        p.name = name ∧ p.description = description := by
  refine ⟨⟨rfl, rfl⟩, ?_⟩
  intro p hp
  rw [create_project_ok st id now name description fs p hp]
  exact ⟨rfl, rfl⟩

/-- Witness for C2 at a concrete successful creation. -/
theorem create_project_verbatim_witness :
    (sampleState.create_project ⟨7⟩ ⟨100⟩ "Alpha" "First" sampleFs).1
      = .ok (Project.new ⟨7⟩ ⟨100⟩ "Alpha" "First")
    ∧ ((Project.new ⟨7⟩ ⟨100⟩ "Alpha" "First").name = "Alpha"
      ∧ (Project.new ⟨7⟩ ⟨100⟩ "Alpha" "First").description = "First") :=
  ⟨by decide,
   (create_project_verbatim sampleState ⟨7⟩ ⟨100⟩ "Alpha" "First" sampleFs).2
     _ (by decide)⟩

/-- C3: a per-entry load failure never makes `list_projects` itself fail
(when the projects root is enumerable the result is `Ok`), and after `N`
successful saves with distinct ids onto a store whose pre-existing
entries all fail to load (e.g. a malformed `project.json`), listing
returns exactly those `N` projects, the malformed entry omitted. -/
theorem list_skips_failing_entries (db : Database) (fs : FS)
    (ps : List Project) :
    (memPath fs.dirs db.projects_dir = true →
      ∃ l, db.list_projects fs = .ok l)
    ∧ (memPath fs.dirs db.projects_dir = true →
        (saveAll db ps fs).1 = .ok () →
        (ps.map fun p => p.id.render).Nodup →
        (∀ p ∈ ps, p.id.render ∉ fs.entryNames db.projects_dir) →
        (∀ name ∈ fs.entryNames db.projects_dir,
          db.tryLoadEntry fs name = none) →
        ∃ l, db.list_projects (saveAll db ps fs).2 = .ok l ∧ l.Perm ps) := by
  constructor
  · intro hroot
    exact ⟨_, list_projects_eq db fs hroot⟩
  · intro hroot hsucc hnodup hfresh hold
    have h := list_projects_saveAll db ps fs hroot hsucc hnodup hfresh
    have hnil : (fs.entryNames db.projects_dir).filterMap (db.tryLoadEntry fs)
        = [] := List.filterMap_eq_nil_iff.mpr hold
    rw [hnil, List.append_nil] at h
    exact ⟨ps.reverse, h, List.reverse_perm ps⟩

/-- Witness for C3: two saves onto a store holding one malformed entry. -/
theorem list_skips_failing_entries_witness :
    ∃ l, sampleDb.list_projects
        (saveAll sampleDb [sampleProjectA, sampleProjectB] sampleFsMalformed).2
      = .ok l ∧ l.Perm [sampleProjectA, sampleProjectB] :=
  (list_skips_failing_entries sampleDb sampleFsMalformed
      [sampleProjectA, sampleProjectB]).2
    (by decide) (by decide) (by decide) (by decide) (by decide)

/-- C4: when no `project.json` exists under the id, `load_project`
returns `Ok(None)`, never an error; an error is returned only when the
path exists and it is the `Database` variant, caused by a failing read or
a failing parse. -/
theorem load_missing_is_none (db : Database) (fs : FS) (pid : String) :
    (fs.pathExists (db.projects_dir ++ [pid, "project.json"]) = false →
      db.load_project fs pid = .ok none)
    ∧ (∀ e, db.load_project fs pid = .error e →
        fs.pathExists (db.projects_dir ++ [pid, "project.json"]) = true
        ∧ (∃ m, e = AppError.Database m)
        ∧ ((∃ msg, fs.read (db.projects_dir ++ [pid, "project.json"])
              = .error msg)
          ∨ (∃ c, fs.read (db.projects_dir ++ [pid, "project.json"]) = .ok c
              ∧ Project.fromJson c = none))) := by
  constructor
  · intro h
    simp only [Database.load_project]
    rw [if_neg (by simp [h])]
  · intro e h
    simp only [Database.load_project] at h
    by_cases hex :
        fs.pathExists (db.projects_dir ++ [pid, "project.json"]) = true
    · rw [if_pos hex] at h
      cases hf : findFile fs.files (db.projects_dir ++ [pid, "project.json"]) with
      | none =>
        simp only [FS.read, hf] at h
        have he : AppError.Database ("Failed to read project file: "
            ++ "io error") = e := by simpa using h
        exact ⟨hex, ⟨_, he.symm⟩, Or.inl ⟨"io error", by simp [FS.read, hf]⟩⟩
      | some c =>
        simp only [FS.read, hf] at h
        cases hj : Project.fromJson c with
        | none =>
          rw [hj] at h
          have he : AppError.Database "Failed to parse project: invalid data"
              = e := by simpa using h
          exact ⟨hex, ⟨_, he.symm⟩, Or.inr ⟨c, by simp [FS.read, hf], hj⟩⟩
        | some q =>
          rw [hj] at h
          exact Except.noConfusion h
    · rw [if_neg hex] at h
      exact Except.noConfusion h

/-- Witness for C4: loading an id with no entry on a root that exists. -/
theorem load_missing_is_none_witness :
    sampleFs.pathExists (sampleDb.projects_dir ++ ["nope", "project.json"])
      = false
    ∧ sampleDb.load_project sampleFs "nope" = .ok none :=
  ⟨by decide, (load_missing_is_none sampleDb sampleFs "nope").1 (by decide)⟩

/-- C5: a storage failure inside the facade is returned as the error's
display string: `create_project` and `get_projects` return
`e.display` — a plain string, not the structured variant. -/
theorem facade_stringifies_errors (st : AppState) (id : Uuid)
    (now : DateTime) (name description : String) (fs : FS) :
    (∀ e, (st.db.save_project (Project.new id now name description) fs).1
        = .error e →
      (st.create_project id now name description fs).1 = .error e.display)
    ∧ (∀ e, st.db.list_projects fs = .error e →
        st.get_projects fs = .error e.display) :=
  ⟨fun e h => create_project_err st id now name description fs e h,
   fun e h => get_projects_err st fs e h⟩

/-- Witness for C5: a failing save and a failing list, both surfacing as
display strings. -/
theorem facade_stringifies_errors_witness :
    (sampleState.create_project ⟨5⟩ ⟨100⟩ "X" "Y" sampleFsReadOnly).1
      = .error (AppError.Database
          "Failed to create project directory: permission denied").display
    ∧ sampleState.get_projects sampleFsNoRoot
      = .error (AppError.Database
          "Failed to read projects directory: no such directory").display :=
  ⟨(facade_stringifies_errors sampleState ⟨5⟩ ⟨100⟩ "X" "Y"
      sampleFsReadOnly).1 _ (by decide),
   (facade_stringifies_errors sampleState ⟨5⟩ ⟨100⟩ "X" "Y"
      sampleFsNoRoot).2 _ (by decide)⟩

/-- C6: `save_project` is the relational-store write (a no-op returning
`Ok`) followed by the filesystem write; it succeeds exactly when the
directory creation and the `project.json` write both succeed, in which
case the project directory exists and the file holds the serialized
record; any failure surfaces as the `Database` variant. -/
theorem save_performs_two_steps (db : Database) (p : Project) (fs : FS) :
    db.save_project_to_db p = .ok ()
    ∧ db.save_project p fs = db.save_project_to_filesystem p fs
    ∧ ((db.save_project p fs).1 = .ok () ↔
        ((fs.createDirAll (db.projects_dir ++ [p.id.render])).1 = .ok ()
          ∧ ((fs.createDirAll (db.projects_dir ++ [p.id.render])).2.write
              ((db.projects_dir ++ [p.id.render]) ++ ["project.json"])
              (projectMetadata p)).1 = .ok ()))
    ∧ ((db.save_project p fs).1 = .ok () →
        memPath (db.save_project p fs).2.dirs
          (db.projects_dir ++ [p.id.render]) = true
        ∧ (db.save_project p fs).2.read
            (db.projects_dir ++ [p.id.render, "project.json"])
          = .ok (projectMetadata p))
    ∧ (∀ e, (db.save_project p fs).1 = .error e →
        ∃ m, e = AppError.Database m) := by
  have hpath : (db.projects_dir ++ [p.id.render]) ++ ["project.json"]
      = db.projects_dir ++ [p.id.render, "project.json"] := by simp
  refine ⟨rfl, rfl, ?_, ?_, fun e h => save_project_error_form db p fs e h⟩
  · by_cases h1 : memPath fs.unwritable (db.projects_dir ++ [p.id.render])
        = true
    · constructor
      · intro h
        exfalso
        rw [save_project_eq, Database.save_project_to_filesystem] at h
        simp [FS.createDirAll, h1] at h
      · rintro ⟨hc, -⟩
        exfalso
        rw [FS.createDirAll, if_pos h1] at hc
        exact Except.noConfusion hc
    · by_cases h2 : memPath fs.unwritable
          (db.projects_dir ++ [p.id.render, "project.json"]) = true
      · constructor
        · intro h
          exfalso
          rw [save_project_eq, Database.save_project_to_filesystem] at h
          simp [FS.createDirAll, FS.write, h1, h2] at h
        · rintro ⟨-, hw⟩
          exfalso
          rw [FS.createDirAll, if_neg h1] at hw
          rw [FS.write] at hw
          rw [hpath] at hw
          simp [h2] at hw
      · constructor
        · intro _
          constructor
          · rw [FS.createDirAll, if_neg h1]
          · rw [FS.createDirAll, if_neg h1, FS.write, hpath]
            simp [h2]
        · intro _
          rw [save_project_eq, Database.save_project_to_filesystem]
          simp [FS.createDirAll, FS.write, h1, h2]
  · intro h
    obtain ⟨-, -, hstate⟩ := save_project_success_state db p fs h
    constructor
    · rw [hstate]
      exact memPath_iff.mpr (List.mem_append.mpr
        (Or.inl (self_mem_initSegs db.projects_dir p.id.render)))
    · rw [hstate]
      simp [FS.read, findFile]

/-- Witness for C6 at a concrete successful save. -/
theorem save_performs_two_steps_witness :
    (sampleDb.save_project sampleProjectA sampleFs).1 = .ok ()
    ∧ (sampleDb.save_project sampleProjectA sampleFs).2.read
        (sampleDb.projects_dir ++ [sampleProjectA.id.render, "project.json"])
      = .ok (projectMetadata sampleProjectA) :=
  ⟨by decide,
   ((save_performs_two_steps sampleDb sampleProjectA sampleFs).2.2.2.1
     (by decide)).2⟩

/-- C7: the constructor sets `created_at = updated_at` (one clock reading
for both), and in any store reachable from an empty one by
`create_project` calls, every project returned by `get_projects`
satisfies `created_at = updated_at`, hence `created_at <= updated_at`. -/
theorem created_at_eq_updated_at (id : Uuid) (now : DateTime)
    (name description : String) (st : AppState)
    (trace : List (Uuid × DateTime × String × String)) (fs : FS)
    (l : List Project) (q : Project) :
    (Project.new id now name description).created_at
      = (Project.new id now name description).updated_at
    ∧ (fs.files = [] → st.get_projects (runCreates st trace fs) = .ok l →
        q ∈ l →
        q.created_at = q.updated_at
          ∧ q.created_at.nanos ≤ q.updated_at.nanos) := by
  refine ⟨rfl, ?_⟩
  intro hempty hget hq
  have hok : timesOk fs := by
    intro e he
    rw [hempty] at he
    exact absurd he (List.not_mem_nil e)
  have hinv := timesOk_runCreates st trace fs hok
  rcases get_projects_mem_source st _ l q hget hq with ⟨c, ⟨e, he, hc⟩, hjson⟩
  have heq := hinv e he q (by rw [hc]; exact hjson)
  exact ⟨heq, by rw [heq]⟩

/-- Witness for C7: one creation on an empty store, then a listing. -/
theorem created_at_eq_updated_at_witness :
    sampleFs.files = []
    ∧ sampleState.get_projects (runCreates sampleState sampleTrace sampleFs)
        = .ok [sampleProjectA]
    ∧ (sampleProjectA.created_at = sampleProjectA.updated_at
      ∧ sampleProjectA.created_at.nanos ≤ sampleProjectA.updated_at.nanos) :=
  ⟨rfl, by decide,
   (created_at_eq_updated_at ⟨7⟩ ⟨100⟩ "Alpha" "First" sampleState
      sampleTrace sampleFs [sampleProjectA] sampleProjectA).2
     rfl (by decide) (by decide)⟩

/-- C8 counterexample: id generation is a random draw, and nothing rules
out a repeated draw — two distinct, both-successful `create_project`
calls whose draws coincide return distinct projects with equal ids, so
unconditional uniqueness fails. -/
theorem same_draw_same_id_cex :
    (sampleState.create_project ⟨7⟩ ⟨100⟩ "Alpha" "First" sampleFs).1
      = .ok (Project.new ⟨7⟩ ⟨100⟩ "Alpha" "First")
    ∧ (sampleState.create_project ⟨7⟩ ⟨200⟩ "Beta" "Second"
        (sampleState.create_project ⟨7⟩ ⟨100⟩ "Alpha" "First" sampleFs).2).1
      = .ok (Project.new ⟨7⟩ ⟨200⟩ "Beta" "Second")
    ∧ (Project.new ⟨7⟩ ⟨100⟩ "Alpha" "First").id
      = (Project.new ⟨7⟩ ⟨200⟩ "Beta" "Second").id
    ∧ Project.new ⟨7⟩ ⟨100⟩ "Alpha" "First"
      ≠ Project.new ⟨7⟩ ⟨200⟩ "Beta" "Second" :=
  ⟨by decide, by decide, rfl, by decide⟩

/-- C8 (amended): a created project's id is exactly the fresh 128-bit
draw, so whenever the random draws of two `create_project` calls differ,
the returned projects' ids differ. -/
theorem distinct_draws_distinct_ids (st1 st2 : AppState) (u1 u2 : Uuid)
    (t1 t2 : DateTime) (n1 d1 n2 d2 : String) (fs1 fs2 : FS)
    (h : u1 ≠ u2) :
    ∀ p q, (st1.create_project u1 t1 n1 d1 fs1).1 = .ok p →
      (st2.create_project u2 t2 n2 d2 fs2).1 = .ok q → p.id ≠ q.id := by
  intro p q hp hq
  rw [create_project_ok st1 u1 t1 n1 d1 fs1 p hp,
    create_project_ok st2 u2 t2 n2 d2 fs2 q hq]
  exact h

/-- Witness for the amended C8 at two concrete distinct draws. -/
theorem distinct_draws_distinct_ids_witness :
    (⟨7⟩ : Uuid) ≠ ⟨8⟩
    ∧ (sampleState.create_project ⟨7⟩ ⟨100⟩ "Alpha" "First" sampleFs).1
        = .ok sampleProjectA
    ∧ (sampleState.create_project ⟨8⟩ ⟨200⟩ "Beta" "Second" sampleFs).1
        = .ok sampleProjectB
    ∧ sampleProjectA.id ≠ sampleProjectB.id :=
  ⟨by decide, by decide, by decide,
   distinct_draws_distinct_ids sampleState sampleState ⟨7⟩ ⟨8⟩ ⟨100⟩ ⟨200⟩
     "Alpha" "First" "Beta" "Second" sampleFs sampleFs (by decide)
     sampleProjectA sampleProjectB (by decide) (by decide)⟩

/-- C9: `greet` is a pure function of its argument, returning exactly
the fixed greeting around the name. -/
theorem greet_deterministic (name : String) :
    greet name = "Hello, " ++ name ++ "! Welcome to ETAB Extension." := rfl

/-- C10 counterexample: the display string is not
`"<Kind> error: <message>"` for every variant — `NotFound` displays as
`"Not found: <message>"`, with no `error:` and not the variant's name. -/
theorem notfound_display_cex :
    (AppError.NotFound "missing").display = "Not found: missing"
    ∧ (AppError.NotFound "missing").display ≠ "NotFound error: missing" :=
  ⟨rfl, by decide⟩

/-- C10 (amended): every display string is a fixed variant-identifying
leading tag followed by the message (`"Database error: "`,
`"Validation error: "`, `"Not found: "`, `"Internal error: "`,
`"ETABS error: "`); the tags are pairwise distinct, so the kind remains
recoverable from the text, and every storage-failure string the facade
returns begins with `"Database error: "`. -/
theorem display_kind_recoverable (e e1 e2 : AppError) (st : AppState)
    (id : Uuid) (now : DateTime) (name description : String) (fs : FS) :
    e.display = e.kindTag ++ e.message
    ∧ (e1.kindTag = e2.kindTag → e1.kind = e2.kind)
    ∧ (∀ s, (st.create_project id now name description fs).1 = .error s →
        ∃ m, s = "Database error: " ++ m)
    ∧ (∀ s, st.get_projects fs = .error s →
        ∃ m, s = "Database error: " ++ m) := by
  refine ⟨?_, ?_, ?_, ?_⟩
  · cases e <;> rfl
  · cases e1 <;> cases e2 <;> intro hT <;>
      first
        | rfl
        | (simp only [AppError.kindTag] at hT; exact absurd hT (by decide))
  · intro s hs
    rw [AppState.create_project] at hs
    rcases hsave : st.db.save_project (Project.new id now name description) fs
      with ⟨r, fs1⟩
    rw [hsave] at hs
    cases r with
    | ok u => cases u; simp at hs
    | error e2 =>
      have hs2 : e2.display = s := by simpa using hs
      have herr : (st.db.save_project (Project.new id now name description)
          fs).1 = .error e2 := by rw [hsave]
      rcases save_project_error_form st.db _ fs e2 herr with ⟨m, rfl⟩
      exact ⟨m, hs2.symm⟩
  · intro s hs
    rw [AppState.get_projects] at hs
    cases hl : st.db.list_projects fs with
    | ok l => rw [hl] at hs; simp at hs
    | error e2 =>
      rw [hl] at hs
      have hs2 : e2.display = s := by simpa using hs
      rcases list_projects_error_form st.db fs e2 hl with ⟨m, rfl⟩
      exact ⟨m, hs2.symm⟩

/-- Witness for the amended C10: the tag/message decomposition at a
concrete error, and a concrete facade failure string carrying the
`"Database error: "` tag. -/
theorem display_kind_recoverable_witness :
    (AppError.Database "x").display
      = (AppError.Database "x").kindTag ++ (AppError.Database "x").message
    ∧ ∃ m, ("Database error: Failed to create project directory: permission denied" : String)
        = "Database error: " ++ m :=
  ⟨(display_kind_recoverable (.Database "x") (.Database "x") (.Database "x")
      sampleState ⟨5⟩ ⟨100⟩ "X" "Y" sampleFsReadOnly).1,
   (display_kind_recoverable (.Database "x") (.Database "x") (.Database "x")
      sampleState ⟨5⟩ ⟨100⟩ "X" "Y" sampleFsReadOnly).2.2.1 _ (by decide)⟩

end EtabExt
